import Mathlib

/-!
# A verification model of jwalk

jwalk augments JSON decoding: an object whose first key begins with the
marker character is intercepted and dispatched to a registered directive
handler; every other object decodes into an order-preserving document.

This file embeds the repository's core shallowly in Lean:

* `Registry`, `Register`, `InvokeDirective` follow `registry.go`
  (the directive registry with namespaced names and short-name lookup);
* `decodeValue`, `decodeObject`, `decodeArray` and the skip loop follow
  `unmarshaler.go` (the streaming decode over a token list, with a fuel
  parameter standing in for the recursion of the Go interpreter);
* `Apply`, `registerAll`, `NewRegistry` follow the composition layer.

Go byte-level string indexing is modelled at character level; the two
coincide for the ASCII separator and marker characters the code uses.
Directive handlers, which in Go receive a positioned `jsontext.Decoder`,
are modelled as functions from the token stream to an error or a produced
value plus the remaining stream.
-/

namespace JWalk

/-! ## Tokens and decoded values -/

/-- One token of a JSON token stream, as produced by the `jsontext`
tokenizer consumed by `unmarshaler.go`: structural tokens and scalars.
Object member names appear as `str` tokens, as they do in `jsontext`. -/
inductive Tok where
  | lbrace
  | rbrace
  | lbrack
  | rbrack
  | str (s : String)
  | num (n : Int)
  | boolean (b : Bool)
  | null
deriving DecidableEq

/-- A decoded dynamic value (Go `any`): scalars, the ordered document `D`
(a list of key/value entries, duplicates kept) and the array `A`.
Directive handlers may produce any of these. -/
inductive Value where
  | vStr (s : String)
  | vNum (n : Int)
  | vBool (b : Bool)
  | vNull
  | vD (entries : List (String × Value))
  | vA (elems : List Value)

/-! ## Registry (registry.go)

`entries` is the map from fully-qualified name to directive, modelled as
an association list (Go map order is irrelevant: only lookups are used,
and `Register` keeps keys unique). `shorts` maps a bare suffix to the
fully-qualified names sharing it, in registration order, exactly as the
Go code appends them. -/

/-- Association-list lookup, modelling a Go map read `m[k]`. -/
def assocLookup {α : Type} : List (String × α) → String → Option α
  | [], _ => none
  | (k, v) :: rest, key => if k = key then some v else assocLookup rest key

/-- Lookup in the short-name index; a missing key reads as the empty
list, as a Go `map[string][]string` read does. -/
def lookupShorts (shorts : List (String × List String)) (key : String) : List String :=
  match assocLookup shorts key with
  | some l => l
  | none => []

/-- Append one fully-qualified name to the list held under `short`,
modelling `r.shorts[short] = append(r.shorts[short], name)`. -/
def shortsAppend : List (String × List String) → String → String → List (String × List String)
  | [], short, name => [(short, [name])]
  | (k, v) :: rest, short, name =>
    if k = short then (k, v ++ [name]) :: rest else (k, v) :: shortsAppend rest short name

/-- Index of the first occurrence of a character in a character list. -/
def firstIdxAux (c : Char) : List Char → Option Nat
  | [] => none
  | x :: xs => if x = c then some 0 else (firstIdxAux c xs).map (· + 1)

/-- Model of Go `strings.IndexByte` (`none` for Go's `-1`). -/
def firstIndexOfChar (s : String) (c : Char) : Option Nat :=
  firstIdxAux c s.toList

/-- Model of Go `strings.LastIndexByte` (`none` for Go's `-1`). -/
def lastIndexOfChar (s : String) (c : Char) : Option Nat :=
  (firstIdxAux c s.toList.reverse).map (fun i => s.toList.length - 1 - i)

/-- Render a name the way Go's `%q` verb does in the error messages. -/
def quote (s : String) : String :=
  "\"" ++ s ++ "\""

/-- A directive: a fully-qualified (or bare) name bound to a handler.
The handler consumes tokens for one JSON value and produces a dynamic
value, or fails (`Directive` / `NewDirective` in registry.go). -/
structure Directive where
  name : String
  call : List Tok → Except String (Value × List Tok)

/-- The directive registry of registry.go: full-name entries, the
short-name index, and the single-character namespace separator. -/
structure Registry where
  entries : List (String × Directive)
  shorts : List (String × List String)
  sepByte : Char

/-- Model of `newRegistry`: empty maps, separator defaulted to a dot. -/
def newRegistry : Registry :=
  { entries := [], shorts := [], sepByte := '.' }

/-- Model of `Registry.Register` (registry.go lines 102-126). The result
pairs the registry state after the call with the error, if any, so that
the call's effect on the state at each exit point is visible: the Go code
returns on the duplicate-name and invalid-namespace checks before it
writes either map. -/
def Register (r : Registry) (d : Directive) : Registry × Option String :=
  let name := d.name
  if (assocLookup r.entries name).isSome then
    (r, some ("directive " ++ quote name ++ " already registered"))
  else
    match lastIndexOfChar name r.sepByte with
    | some idx =>
      if idx = name.length - 1 ∨ firstIndexOfChar name r.sepByte ≠ some idx then
        (r, some ("directive " ++ quote name ++ " invalid namespace (expected ns.name)"))
      else
        let short := (name.toList.drop (idx + 1)).asString
        ({ r with
            entries := r.entries ++ [(name, d)],
            shorts := shortsAppend r.shorts short name }, none)
    | none =>
      ({ r with entries := r.entries ++ [(name, d)] }, none)

/-- Model of the handler invocation and error wrapping at the end of
`Registry.InvokeDirective` (registry.go lines 160-165): a handler error
is wrapped naming the entry's own fully-qualified name. -/
def callDirective (ent : Directive) (ts : List Tok) : Except String (Value × List Tok) :=
  match ent.call ts with
  | .error e => .error ("directive " ++ quote ent.name ++ ": " ++ e)
  | .ok res => .ok res

/-- Model of `Registry.InvokeDirective` (registry.go lines 133-166):
exact lookup on the full name first; otherwise, for a bare name, resolve
through the short-name index (zero matches: not registered; one match:
use it; several: ambiguous, enumerating the candidates). -/
def InvokeDirective (r : Registry) (name : String) (ts : List Tok) :
    Except String (Value × List Tok) :=
  match assocLookup r.entries name with
  | some ent => callDirective ent ts
  | none =>
    if lastIndexOfChar name r.sepByte = none then
      match lookupShorts r.shorts name with
      | [] => .error ("directive " ++ quote name ++ " not registered")
      | [m] =>
        match assocLookup r.entries m with
        | some ent => callDirective ent ts
        | none => .error ("directive " ++ quote name ++ " not registered")
      | ms => .error ("directive " ++ quote name ++ " ambiguous ("
          ++ String.intercalate (", ") ms ++ ")")
    else
      .error ("directive " ++ quote name ++ " not registered")

/-! ## Streaming decode (unmarshaler.go)

The Go code walks a `jsontext.Decoder`; the model walks a token list and
threads the unconsumed suffix. The mutual recursion of the Go
interpreter (nested `json.UnmarshalDecode` calls re-enter the same
unmarshalers) is made total with a fuel parameter: every claim supplies
enough fuel for its input, so fuel exhaustion never masks behaviour.
The ambient registry `R` is the one bound by `Unmarshalers(r)`; nested
values always decode through it, which is why a `Document`-target decode
still intercepts sentinels nested below the top level. -/

/-- Sentinel test on a first key, modelling
`len(firstKey) > 0 && firstKey[0] == '$'` (unmarshaler.go line 114). -/
def hasMarker (s : String) : Bool :=
  match s.toList with
  | c :: _ => c = '$'
  | [] => false

/-- Model of `firstKey[1:]`: the lookup name after the marker. -/
def stripMarker (s : String) : String :=
  (s.toList.drop 1).asString

/-- Model of a `dec.PeekKind()` comparison against one structural
token: does the stream's next token equal `t`? -/
def peekIs (t : Tok) (ts : List Tok) : Bool :=
  match ts with
  | x :: _ => x = t
  | [] => false

/-- One step of `jsontext.Decoder.SkipValue`: drop one complete JSON
value from the stream, tracking bracket depth. `none` models a skip
error (unbalanced or exhausted input). -/
def skipToks (d : Nat) : List Tok → Option (List Tok)
  | [] => none
  | t :: rest =>
    match t with
    | .lbrace => skipToks (d + 1) rest
    | .lbrack => skipToks (d + 1) rest
    | .rbrace =>
      match d with
      | 0 => none
      | 1 => some rest
      | n + 2 => skipToks (n + 1) rest
    | .rbrack =>
      match d with
      | 0 => none
      | 1 => some rest
      | n + 2 => skipToks (n + 1) rest
    | _ => if d = 0 then some rest else skipToks d rest

/-- Model of one `dec.SkipValue()` call. -/
def skipValue (ts : List Tok) : Option (List Tok) :=
  skipToks 0 ts

/-- The drain loop of the sentinel branch (unmarshaler.go lines
119-123): `for dec.PeekKind() != '}' { dec.SkipValue() }`. It stops just
before the close-brace; the fuel bounds the number of iterations. -/
def skipAllFields : Nat → List Tok → Option (List Tok)
  | 0, _ => none
  | fuel + 1, ts =>
    if peekIs .rbrace ts then
      some ts
    else
      match skipValue ts with
      | some rest2 => skipAllFields fuel rest2
      | none => none

mutual

/-- Model of `unmarshalValue` (unmarshaler.go lines 33-59) combined with
the default decoding of scalars that the Go code leaves to
`json.SkipFunc`: an object start enters `decodeObject` with sentinel
handling on and the ambient registry passed; an array start enters
`decodeArray`; a scalar decodes to itself. -/
def decodeValue (R : Registry) : Nat → List Tok → Except String (Value × List Tok)
  | 0, _ => .error "out of fuel"
  | fuel + 1, ts =>
    match ts with
    | .lbrace :: _ =>
      match decodeObject R (some R) true fuel ts with
      | .ok (v, _, rest) => .ok (v, rest)
      | .error e => .error e
    | .lbrack :: _ => decodeArray R fuel ts
    | .str s :: rest => .ok (.vStr s, rest)
    | .num n :: rest => .ok (.vNum n, rest)
    | .boolean b :: rest => .ok (.vBool b, rest)
    | .null :: rest => .ok (.vNull, rest)
    | .rbrace :: _ => .error "unexpected token"
    | .rbrack :: _ => .error "unexpected token"
    | [] => .error "unexpected end of input"

/-- Model of `decodeObject` (unmarshaler.go lines 99-150). `ropt` is the
registry argument (`nil` when called from `unmarshalDocument`),
`handleOps` the `handleOperators` flag. The result's `Bool` is
`wasOperator`. The sentinel branch fires exactly under the source's
condition `handleOperators && len(firstKey) > 0 && firstKey[0] == '$'
&& r != nil`; it strips the marker, invokes the registry, drains the
remaining fields, consumes the close-brace and yields the handler's
value unwrapped. The plain branch accumulates entries in arrival
order. -/
def decodeObject (R : Registry) (ropt : Option Registry) (handleOps : Bool) :
    Nat → List Tok → Except String (Value × Bool × List Tok)
  | 0, _ => .error "out of fuel"
  | fuel + 1, ts =>
    match ts with
    | .lbrace :: rest =>
      if peekIs .rbrace rest then .ok (.vD [], false, rest.tail)
      else
      match rest with
      | .str firstKey :: rest2 =>
        match ropt with
        | some reg =>
          if handleOps && hasMarker firstKey then
            match InvokeDirective reg (stripMarker firstKey) rest2 with
            | .error e => .error ("operator " ++ quote firstKey ++ " call: " ++ e)
            | .ok (vv, rest3) =>
              match skipAllFields fuel rest3 with
              | none => .error ("operator " ++ quote firstKey ++ " skip extra field")
              | some rest4 =>
                match rest4 with
                | .rbrace :: rest5 => .ok (vv, true, rest5)
                | _ => .error ("operator " ++ quote firstKey ++ " read object close")
          else
            decodeObjectPlain R firstKey fuel rest2
        | none => decodeObjectPlain R firstKey fuel rest2
      | _ => .error "read object first key"
    | _ => .error "read object open"

/-- The regular-object path of `decodeObject` (unmarshaler.go lines
129-149) after the first key has been read: decode the first value
generically, then loop through `decodeFields`. -/
def decodeObjectPlain (R : Registry) (firstKey : String) :
    Nat → List Tok → Except String (Value × Bool × List Tok)
  | 0, _ => .error "out of fuel"
  | fuel + 1, ts =>
    match decodeValue R fuel ts with
    | .error e => .error ("read object value for key " ++ quote firstKey ++ ": " ++ e)
    | .ok (firstVal, rest) =>
      match decodeFields R [(firstKey, firstVal)] fuel rest with
      | .error e => .error e
      | .ok (entries, rest2) => .ok (.vD entries, false, rest2)

/-- The field loop of `decodeObject` (unmarshaler.go lines 135-148):
while the next token is not the close-brace, read a key and a
generically decoded value and append the entry; then consume the
close-brace. -/
def decodeFields (R : Registry) (acc : List (String × Value)) :
    Nat → List Tok → Except String (List (String × Value) × List Tok)
  | 0, _ => .error "out of fuel"
  | fuel + 1, ts =>
    if peekIs .rbrace ts then .ok (acc, ts.tail)
    else
    match ts with
    | .str k :: rest =>
      match decodeValue R fuel rest with
      | .error e => .error ("read object value: " ++ e)
      | .ok (v, rest2) => decodeFields R (acc ++ [(k, v)]) fuel rest2
    | _ => .error "read object key"

/-- Model of `decodeArray` (unmarshaler.go lines 153-175): consume the
open bracket, fast-path the empty array, else loop through
`decodeElems`. The Go function ignores its registry parameter; elements
decode through the ambient unmarshalers. -/
def decodeArray (R : Registry) : Nat → List Tok → Except String (Value × List Tok)
  | 0, _ => .error "out of fuel"
  | fuel + 1, ts =>
    match ts with
    | .lbrack :: rest =>
      if peekIs .rbrack rest then .ok (.vA [], rest.tail)
      else
        match decodeElems R [] fuel rest with
        | .error e => .error e
        | .ok (elems, rest2) => .ok (.vA elems, rest2)
    | _ => .error "read array open"

/-- The element loop of `decodeArray`: decode one generic value per
iteration until the close bracket, then consume it. -/
def decodeElems (R : Registry) (acc : List Value) :
    Nat → List Tok → Except String (List Value × List Tok)
  | 0, _ => .error "out of fuel"
  | fuel + 1, ts =>
    if peekIs .rbrack ts then .ok (acc, ts.tail)
    else
      match decodeValue R fuel ts with
      | .error e => .error ("read array element: " ++ e)
      | .ok (v, rest) => decodeElems R (acc ++ [v]) fuel rest

end

/-- Model of `unmarshalDocument` (unmarshaler.go lines 66-78): decoding
into the `D` target runs `decodeObject(dec, nil, false)`, so sentinel
detection is off for the target's own object; any non-object input is
left to default decoding (`json.SkipFunc`). Nested values still decode
through the ambient registry `R`. -/
def decodeDocument (R : Registry) (fuel : Nat) (ts : List Tok) :
    Except String (Value × List Tok) :=
  match ts with
  | .lbrace :: _ =>
    match decodeObject R none false fuel ts with
    | .ok (v, _, rest) => .ok (v, rest)
    | .error e => .error e
  | _ => .error "json.SkipFunc"

/-! ## Composition layer (unmarshaller.go, registry.go)

A `Registration` mutates a registry or fails; the model passes the
state explicitly, pairing the state after the call with the error. -/

/-- A deferred registration (`Registration` in unmarshaller.go): run
against a registry, it either produces the updated state or fails
leaving the state it reports. -/
def Registration : Type :=
  Registry → Registry × Option String

/-- Model of `Apply` (unmarshaller.go lines 317-324): run the
registrations in order, returning at the first failure. -/
def Apply (r : Registry) : List Registration → Registry × Option String
  | [] => (r, none)
  | reg :: rest =>
    match reg r with
    | (r2, some e) => (r2, some e)
    | (r2, none) => Apply r2 rest

/-- The registration loop of `NewRegistry` (registry.go lines 63-67):
register each collected directive in order, stopping at the first
error. -/
def registerAll (r : Registry) : List Directive → Registry × Option String
  | [] => (r, none)
  | d :: ds =>
    match Register r d with
    | (r2, some e) => (r2, some e)
    | (r2, none) => registerAll r2 ds

/-- Model of `NewRegistry` (unmarshaller.go lines 327-333): apply the
registrations to a fresh registry; any failure aborts construction. -/
def NewRegistry (regs : List Registration) : Except String Registry :=
  match Apply newRegistry regs with
  | (r, none) => .ok r
  | (_, some e) => .error e

/-- Model of `NewRegistry` (registry.go lines 51-69) after the option
phase has collected the directive list: register them in order on a
fresh registry, any failure aborting construction. -/
def NewRegistryDirectives (ds : List Directive) : Except String Registry :=
  match registerAll newRegistry ds with
  | (r, none) => .ok r
  | (_, some e) => .error e

/-! ## Well-formed JSON inputs

Universal claims quantify over well-formed JSON values, represented as
trees and serialized to the token stream the decoder consumes. Objects
keep their fields as written: order matters and duplicate or empty keys
are allowed, as in the wire format. -/

mutual

/-- A well-formed JSON value as it appears in the input text. -/
inductive J where
  | jstr (s : String)
  | jnum (n : Int)
  | jbool (b : Bool)
  | jnull
  | jobj (fields : JFields)
  | jarr (elems : JElems)

/-- The fields of a JSON object, in textual order. -/
inductive JFields where
  | fnil
  | fcons (k : String) (v : J) (rest : JFields)

/-- The elements of a JSON array, in textual order. -/
inductive JElems where
  | enil
  | econs (v : J) (rest : JElems)

end

mutual

/-- Serialize a JSON value to its token stream. -/
def toksJ : J → List Tok
  | .jstr s => [.str s]
  | .jnum n => [.num n]
  | .jbool b => [.boolean b]
  | .jnull => [.null]
  | .jobj fs => .lbrace :: (toksF fs ++ [.rbrace])
  | .jarr es => .lbrack :: (toksE es ++ [.rbrack])

/-- Serialize object fields: each field is its key token followed by
its value's tokens. -/
def toksF : JFields → List Tok
  | .fnil => []
  | .fcons k v fs => .str k :: (toksJ v ++ toksF fs)

/-- Serialize array elements. -/
def toksE : JElems → List Tok
  | .enil => []
  | .econs v es => toksJ v ++ toksE es

end

mutual

/-- Fuel bound for decoding a serialized value: any fuel above this
suffices. -/
def sizeJ : J → Nat
  | .jobj fs => sizeF fs + 2
  | .jarr es => sizeE es + 2
  | _ => 1

/-- Fuel bound for the field loop. -/
def sizeF : JFields → Nat
  | .fnil => 0
  | .fcons _ v fs => sizeJ v + sizeF fs + 2

/-- Fuel bound for the element loop. -/
def sizeE : JElems → Nat
  | .enil => 0
  | .econs v es => sizeJ v + sizeE es + 1

end

mutual

/-- No object anywhere in this value has a first key beginning with the
sentinel marker, so generic decoding never consults the registry. -/
def noSentJ : J → Bool
  | .jobj fs => !firstKeyMarker fs && noSentF fs
  | .jarr es => noSentE es
  | _ => true

/-- Sentinel-freedom of every field value. -/
def noSentF : JFields → Bool
  | .fnil => true
  | .fcons _ v fs => noSentJ v && noSentF fs

/-- Sentinel-freedom of every element. -/
def noSentE : JElems → Bool
  | .enil => true
  | .econs v es => noSentJ v && noSentE es

/-- Does the object's first key begin with the marker character? -/
def firstKeyMarker : JFields → Bool
  | .fnil => false
  | .fcons k _ _ => hasMarker k

end

mutual

/-- The plain decoding of a JSON value: objects become ordered
documents, arrays become arrays, scalars themselves. This is what the
streaming decoder produces when no sentinel is dispatched. -/
def decodeTreeJ : J → Value
  | .jstr s => .vStr s
  | .jnum n => .vNum n
  | .jbool b => .vBool b
  | .jnull => .vNull
  | .jobj fs => .vD (decodeTreeF fs)
  | .jarr es => .vA (decodeTreeE es)

/-- Entries of the plain decoding of object fields, in textual order. -/
def decodeTreeF : JFields → List (String × Value)
  | .fnil => []
  | .fcons k v fs => (k, decodeTreeJ v) :: decodeTreeF fs

/-- Elements of the plain decoding of an array. -/
def decodeTreeE : JElems → List Value
  | .enil => []
  | .econs v es => decodeTreeJ v :: decodeTreeE es

end

/-- The keys of an object's fields, in textual order, duplicates kept. -/
def keysF : JFields → List String
  | .fnil => []
  | .fcons k _ fs => k :: keysF fs

/-! ## Lemmas about the skip loop -/

theorem peekIs_rbrace_toksJ (v : J) (l : List Tok) :
    peekIs .rbrace (toksJ v ++ l) = false := by
  cases v <;> simp [toksJ, peekIs]

theorem peekIs_rbrack_toksJ (v : J) (l : List Tok) :
    peekIs .rbrack (toksJ v ++ l) = false := by
  cases v <;> simp [toksJ, peekIs]

mutual

theorem skipToks_through_J (j : J) (d : Nat) (rest : List Tok) (hd : 1 ≤ d) :
    skipToks d (toksJ j ++ rest) = skipToks d rest := by
  obtain ⟨n, rfl⟩ : ∃ n, d = n + 1 := ⟨d - 1, by omega⟩
  cases j with
  | jstr s => rfl
  | jnum m => rfl
  | jbool b => rfl
  | jnull => rfl
  | jobj fs =>
    have h1 := skipToks_through_F fs (n + 1 + 1) (Tok.rbrace :: rest) (by omega)
    simp only [toksJ, List.cons_append, List.append_assoc, List.singleton_append,
      List.nil_append]
    show skipToks (n + 1 + 1) (toksF fs ++ Tok.rbrace :: rest) = skipToks (n + 1) rest
    rw [h1]
    rfl
  | jarr es =>
    have h1 := skipToks_through_E es (n + 1 + 1) (Tok.rbrack :: rest) (by omega)
    simp only [toksJ, List.cons_append, List.append_assoc, List.singleton_append,
      List.nil_append]
    show skipToks (n + 1 + 1) (toksE es ++ Tok.rbrack :: rest) = skipToks (n + 1) rest
    rw [h1]
    rfl

theorem skipToks_through_F (fs : JFields) (d : Nat) (rest : List Tok) (hd : 1 ≤ d) :
    skipToks d (toksF fs ++ rest) = skipToks d rest := by
  obtain ⟨n, rfl⟩ : ∃ n, d = n + 1 := ⟨d - 1, by omega⟩
  cases fs with
  | fnil => rw [toksF, List.nil_append]
  | fcons k v fs2 =>
    have hv := skipToks_through_J v (n + 1) (toksF fs2 ++ rest) (by omega)
    have hf := skipToks_through_F fs2 (n + 1) rest (by omega)
    simp only [toksF, List.cons_append, List.append_assoc]
    show skipToks (n + 1) (toksJ v ++ (toksF fs2 ++ rest)) = skipToks (n + 1) rest
    rw [hv, hf]

theorem skipToks_through_E (es : JElems) (d : Nat) (rest : List Tok) (hd : 1 ≤ d) :
    skipToks d (toksE es ++ rest) = skipToks d rest := by
  cases es with
  | enil => rw [toksE, List.nil_append]
  | econs v es2 =>
    have hv := skipToks_through_J v d (toksE es2 ++ rest) hd
    have he := skipToks_through_E es2 d rest hd
    simp only [toksE, List.append_assoc]
    rw [hv, he]

end

theorem skipValue_toksJ (j : J) (rest : List Tok) :
    skipValue (toksJ j ++ rest) = some rest := by
  cases j with
  | jstr s => rfl
  | jnum n => rfl
  | jbool b => rfl
  | jnull => rfl
  | jobj fs =>
    show skipToks 0 (toksJ (J.jobj fs) ++ rest) = some rest
    simp only [toksJ, List.cons_append, List.append_assoc, List.singleton_append,
      List.nil_append]
    show skipToks 1 (toksF fs ++ Tok.rbrace :: rest) = some rest
    rw [skipToks_through_F fs 1 (Tok.rbrace :: rest) (by omega)]
    rfl
  | jarr es =>
    show skipToks 0 (toksJ (J.jarr es) ++ rest) = some rest
    simp only [toksJ, List.cons_append, List.append_assoc, List.singleton_append,
      List.nil_append]
    show skipToks 1 (toksE es ++ Tok.rbrack :: rest) = some rest
    rw [skipToks_through_E es 1 (Tok.rbrack :: rest) (by omega)]
    rfl

theorem skipAllFields_toksF (fs : JFields) :
    ∀ (fuel : Nat) (rest : List Tok), sizeF fs < fuel →
      skipAllFields fuel (toksF fs ++ Tok.rbrace :: rest) = some (Tok.rbrace :: rest) := by
  cases fs with
  | fnil =>
    intro fuel rest hfuel
    obtain ⟨f, rfl⟩ : ∃ f, fuel = f + 1 := ⟨fuel - 1, by omega⟩
    rw [toksF, List.nil_append]
    rfl
  | fcons k v fs2 =>
    intro fuel rest hfuel
    rw [sizeF] at hfuel
    obtain ⟨f, rfl⟩ : ∃ f, fuel = f + 1 + 1 := ⟨fuel - 2, by omega⟩
    simp only [toksF, List.cons_append, List.append_assoc]
    show (match skipValue (Tok.str k :: (toksJ v ++ (toksF fs2 ++ Tok.rbrace :: rest))) with
      | some rest2 => skipAllFields (f + 1) rest2
      | none => none) = some (Tok.rbrace :: rest)
    show skipAllFields (f + 1) (toksJ v ++ (toksF fs2 ++ Tok.rbrace :: rest))
      = some (Tok.rbrace :: rest)
    rw [skipAllFields]
    rw [peekIs_rbrace_toksJ v]
    rw [skipValue_toksJ v (toksF fs2 ++ Tok.rbrace :: rest)]
    show skipAllFields f (toksF fs2 ++ Tok.rbrace :: rest) = some (Tok.rbrace :: rest)
    exact skipAllFields_toksF fs2 f rest (by omega)

/-! ## Decoding a serialized sentinel-free value is plain tree decoding -/

theorem noSentJ_jobj {fs : JFields} (h : noSentJ (J.jobj fs) = true) :
    firstKeyMarker fs = false ∧ noSentF fs = true := by
  rw [noSentJ, Bool.and_eq_true, Bool.not_eq_true'] at h
  exact h

theorem noSentF_fcons {k : String} {v : J} {fs : JFields}
    (h : noSentF (JFields.fcons k v fs) = true) :
    noSentJ v = true ∧ noSentF fs = true := by
  rw [noSentF, Bool.and_eq_true] at h
  exact h

theorem noSentE_econs {v : J} {es : JElems}
    (h : noSentE (JElems.econs v es) = true) :
    noSentJ v = true ∧ noSentE es = true := by
  rw [noSentE, Bool.and_eq_true] at h
  exact h

mutual

theorem decodeValue_toksJ (R : Registry) (j : J) :
    ∀ (fuel : Nat) (rest : List Tok), sizeJ j < fuel → noSentJ j = true →
      decodeValue R fuel (toksJ j ++ rest) = .ok (decodeTreeJ j, rest) := by
  intro fuel rest hfuel hns
  obtain ⟨f, rfl⟩ : ∃ f, fuel = f + 1 := ⟨fuel - 1, by omega⟩
  cases j with
  | jstr s => rfl
  | jnum n => rfl
  | jbool b => rfl
  | jnull => rfl
  | jobj fs =>
    obtain ⟨hm, hnf⟩ := noSentJ_jobj hns
    rw [sizeJ] at hfuel
    simp only [toksJ, List.cons_append, List.append_assoc, List.singleton_append,
      List.nil_append]
    show (match decodeObject R (some R) true f (Tok.lbrace :: (toksF fs ++ Tok.rbrace :: rest)) with
      | .ok (v, _, r) => .ok (v, r)
      | .error e => .error e) = Except.ok (decodeTreeJ (J.jobj fs), rest)
    rw [decodeObject_toksF R (some R) true fs f rest (by omega) hnf (Or.inr (Or.inr hm))]
    rw [decodeTreeJ]
  | jarr es =>
    rw [sizeJ] at hfuel
    simp only [toksJ, List.cons_append, List.append_assoc, List.singleton_append,
      List.nil_append]
    show decodeArray R f (Tok.lbrack :: (toksE es ++ Tok.rbrack :: rest))
      = Except.ok (decodeTreeJ (J.jarr es), rest)
    obtain ⟨f2, rfl⟩ : ∃ f2, f = f2 + 1 := ⟨f - 1, by omega⟩
    cases es with
    | enil => rfl
    | econs v es2 =>
      simp only [toksE, List.append_assoc]
      show (if peekIs Tok.rbrack (toksJ v ++ (toksE es2 ++ Tok.rbrack :: rest)) then
          Except.ok (Value.vA [], (toksJ v ++ (toksE es2 ++ Tok.rbrack :: rest)).tail)
        else
          match decodeElems R [] f2 (toksJ v ++ (toksE es2 ++ Tok.rbrack :: rest)) with
          | .error e => .error e
          | .ok (elems, rest2) => .ok (.vA elems, rest2))
        = Except.ok (decodeTreeJ (J.jarr (JElems.econs v es2)), rest)
      rw [peekIs_rbrack_toksJ]
      have he : toksJ v ++ (toksE es2 ++ Tok.rbrack :: rest)
          = toksE (JElems.econs v es2) ++ Tok.rbrack :: rest := by
        rw [toksE, List.append_assoc]
      rw [if_neg (by simp), he,
        decodeElems_toksE R (JElems.econs v es2) f2 rest [] (by rw [sizeE] at hfuel ⊢; omega) hns]
      rw [List.nil_append, decodeTreeJ]

theorem decodeObject_toksF (R : Registry) (ropt : Option Registry) (ho : Bool) (fs : JFields) :
    ∀ (fuel : Nat) (rest : List Tok), sizeF fs + 1 ≤ fuel → noSentF fs = true →
      (ho = false ∨ ropt = none ∨ firstKeyMarker fs = false) →
      decodeObject R ropt ho fuel (Tok.lbrace :: (toksF fs ++ Tok.rbrace :: rest))
        = .ok (.vD (decodeTreeF fs), false, rest) := by
  intro fuel rest hfuel hns hdisj
  obtain ⟨f, rfl⟩ : ∃ f, fuel = f + 1 := ⟨fuel - 1, by omega⟩
  cases fs with
  | fnil => rfl
  | fcons k v fs2 =>
    obtain ⟨hv, hf2⟩ := noSentF_fcons hns
    rw [sizeF] at hfuel
    simp only [toksF, List.cons_append, List.append_assoc]
    have hplain : decodeObjectPlain R k f (toksJ v ++ (toksF fs2 ++ Tok.rbrace :: rest))
        = .ok (.vD (decodeTreeF (JFields.fcons k v fs2)), false, rest) := by
      obtain ⟨f2, rfl⟩ : ∃ f2, f = f2 + 1 := ⟨f - 1, by omega⟩
      show (match decodeValue R f2 (toksJ v ++ (toksF fs2 ++ Tok.rbrace :: rest)) with
        | .error e => .error ("read object value for key " ++ quote k ++ ": " ++ e)
        | .ok (firstVal, r) =>
          match decodeFields R [(k, firstVal)] f2 r with
          | .error e => .error e
          | .ok (entries, r2) => .ok (.vD entries, false, r2))
        = Except.ok (Value.vD (decodeTreeF (JFields.fcons k v fs2)), false, rest)
      rw [decodeValue_toksJ R v f2 (toksF fs2 ++ Tok.rbrace :: rest) (by omega) hv]
      show (match decodeFields R [(k, decodeTreeJ v)] f2 (toksF fs2 ++ Tok.rbrace :: rest) with
        | .error e => .error e
        | .ok (entries, r2) => .ok (.vD entries, false, r2))
        = Except.ok (Value.vD (decodeTreeF (JFields.fcons k v fs2)), false, rest)
      rw [decodeFields_toksF R fs2 f2 rest [(k, decodeTreeJ v)] (by omega) hf2]
      rw [decodeTreeF, List.singleton_append]
    cases ropt with
    | none =>
      show decodeObjectPlain R k f (toksJ v ++ (toksF fs2 ++ Tok.rbrace :: rest))
        = .ok (.vD (decodeTreeF (JFields.fcons k v fs2)), false, rest)
      exact hplain
    | some reg =>
      have hcond : (ho && hasMarker k) = false := by
        rcases hdisj with h | h | h
        · rw [h, Bool.false_and]
        · exact absurd h (by simp)
        · rw [firstKeyMarker] at h
          rw [h, Bool.and_false]
      show (if (ho && hasMarker k) = true then _ else
          decodeObjectPlain R k f (toksJ v ++ (toksF fs2 ++ Tok.rbrace :: rest)))
        = Except.ok (Value.vD (decodeTreeF (JFields.fcons k v fs2)), false, rest)
      rw [hcond, if_neg (by simp)]
      exact hplain

theorem decodeFields_toksF (R : Registry) (fs : JFields) :
    ∀ (fuel : Nat) (rest : List Tok) (acc : List (String × Value)),
      sizeF fs < fuel → noSentF fs = true →
      decodeFields R acc fuel (toksF fs ++ Tok.rbrace :: rest)
        = .ok (acc ++ decodeTreeF fs, rest) := by
  intro fuel rest acc hfuel hns
  obtain ⟨f, rfl⟩ : ∃ f, fuel = f + 1 := ⟨fuel - 1, by omega⟩
  cases fs with
  | fnil =>
    rw [toksF, List.nil_append, decodeTreeF, List.append_nil]
    rfl
  | fcons k v fs2 =>
    obtain ⟨hv, hf2⟩ := noSentF_fcons hns
    rw [sizeF] at hfuel
    simp only [toksF, List.cons_append, List.append_assoc]
    show (match decodeValue R f (toksJ v ++ (toksF fs2 ++ Tok.rbrace :: rest)) with
      | .error e => .error ("read object value: " ++ e)
      | .ok (v2, rest2) => decodeFields R (acc ++ [(k, v2)]) f rest2)
      = Except.ok (acc ++ decodeTreeF (JFields.fcons k v fs2), rest)
    rw [decodeValue_toksJ R v f (toksF fs2 ++ Tok.rbrace :: rest) (by omega) hv]
    show decodeFields R (acc ++ [(k, decodeTreeJ v)]) f (toksF fs2 ++ Tok.rbrace :: rest)
      = Except.ok (acc ++ decodeTreeF (JFields.fcons k v fs2), rest)
    rw [decodeFields_toksF R fs2 f rest (acc ++ [(k, decodeTreeJ v)]) (by omega) hf2]
    rw [decodeTreeF, List.append_assoc, List.singleton_append]

theorem decodeElems_toksE (R : Registry) (es : JElems) :
    ∀ (fuel : Nat) (rest : List Tok) (acc : List Value),
      sizeE es < fuel → noSentE es = true →
      decodeElems R acc fuel (toksE es ++ Tok.rbrack :: rest)
        = .ok (acc ++ decodeTreeE es, rest) := by
  intro fuel rest acc hfuel hns
  obtain ⟨f, rfl⟩ : ∃ f, fuel = f + 1 := ⟨fuel - 1, by omega⟩
  cases es with
  | enil =>
    rw [toksE, List.nil_append, decodeTreeE, List.append_nil]
    rfl
  | econs v es2 =>
    obtain ⟨hv, he2⟩ := noSentE_econs hns
    rw [sizeE] at hfuel
    simp only [toksE, List.append_assoc]
    show (if peekIs Tok.rbrack (toksJ v ++ (toksE es2 ++ Tok.rbrack :: rest)) then
        Except.ok (acc, (toksJ v ++ (toksE es2 ++ Tok.rbrack :: rest)).tail)
      else
        match decodeValue R f (toksJ v ++ (toksE es2 ++ Tok.rbrack :: rest)) with
        | .error e => .error ("read array element: " ++ e)
        | .ok (v2, rest2) => decodeElems R (acc ++ [v2]) f rest2)
      = Except.ok (acc ++ decodeTreeE (JElems.econs v es2), rest)
    rw [peekIs_rbrack_toksJ, if_neg (by simp)]
    rw [decodeValue_toksJ R v f (toksE es2 ++ Tok.rbrack :: rest) (by omega) hv]
    show decodeElems R (acc ++ [decodeTreeJ v]) f (toksE es2 ++ Tok.rbrack :: rest)
      = Except.ok (acc ++ decodeTreeE (JElems.econs v es2), rest)
    rw [decodeElems_toksE R es2 f rest (acc ++ [decodeTreeJ v]) (by omega) he2]
    rw [decodeTreeE, List.append_assoc, List.singleton_append]

end

/-! ## Shared helper lemmas -/

theorem register_error_state (r : Registry) (d : Directive) (e : String)
    (h : (Register r d).2 = some e) : (Register r d).1 = r := by
  by_cases h1 : (assocLookup r.entries d.name).isSome = true
  · simp [Register, h1]
  · cases hidx : lastIndexOfChar d.name r.sepByte with
    | some idx =>
      by_cases h2 : idx = d.name.length - 1 ∨ firstIndexOfChar d.name r.sepByte ≠ some idx
      · simp [Register, h1, hidx, h2]
      · exfalso
        simp [Register, h1, hidx, h2] at h
    | none =>
      exfalso
      simp [Register, h1, hidx] at h

theorem Apply_append_ok (pre : List Registration) :
    ∀ (r r1 : Registry) (rest : List Registration), Apply r pre = (r1, none) →
      Apply r (pre ++ rest) = Apply r1 rest := by
  induction pre with
  | nil =>
    intro r r1 rest h
    rw [Apply] at h
    obtain ⟨rfl, -⟩ := Prod.mk.injEq .. ▸ h
    rw [List.nil_append]
  | cons reg pre2 ih =>
    intro r r1 rest h
    rw [List.cons_append]
    rw [Apply] at h ⊢
    cases hre : reg r with
    | mk r2 o =>
      rw [hre] at h
      cases o with
      | some e => simp at h
      | none => exact ih r2 r1 rest h

theorem registerAll_append_ok (pre : List Directive) :
    ∀ (r r1 : Registry) (rest : List Directive), registerAll r pre = (r1, none) →
      registerAll r (pre ++ rest) = registerAll r1 rest := by
  induction pre with
  | nil =>
    intro r r1 rest h
    rw [registerAll] at h
    obtain ⟨rfl, -⟩ := Prod.mk.injEq .. ▸ h
    rw [List.nil_append]
  | cons d pre2 ih =>
    intro r r1 rest h
    rw [List.cons_append]
    rw [registerAll] at h ⊢
    cases hre : Register r d with
    | mk r2 o =>
      rw [hre] at h
      cases o with
      | some e => simp at h
      | none => exact ih r2 r1 rest h

theorem decodeTreeF_keys (fs : JFields) :
    (decodeTreeF fs).map Prod.fst = keysF fs := by
  cases fs with
  | fnil => rfl
  | fcons k v fs2 => rw [decodeTreeF, keysF, List.map_cons, decodeTreeF_keys fs2]

/-! ## Fixtures used by the witnesses -/

/-- A handler that reads one integer token, like the `num` handler of
the spec's examples. -/
def intHandler : List Tok → Except String (Value × List Tok) := fun ts =>
  match ts with
  | Tok.num n :: rest => .ok (.vNum n, rest)
  | _ => .error "expected number"

/-- A handler producing a fixed integer without consuming input. -/
def constHandler (n : Int) : List Tok → Except String (Value × List Tok) := fun ts =>
  .ok (.vNum n, ts)

/-- A handler that always fails. -/
def failHandler : List Tok → Except String (Value × List Tok) := fun _ =>
  .error "boom"

/-- A registry holding a bare `num` directive that reads an integer. -/
def numRegistry : Registry :=
  (Register newRegistry ⟨("num"), intHandler⟩).1

/-- A registry holding the bare `b` and the namespaced `x.b`. -/
def bnRegistry : Registry :=
  (Register (Register newRegistry ⟨("b"), constHandler 1⟩).1 ⟨("x.b"), constHandler 2⟩).1

/-- A registry holding `x.b` and `y.b`, whose shared suffix `b` is
ambiguous. -/
def xyRegistry : Registry :=
  (Register (Register newRegistry ⟨("x.b"), constHandler 1⟩).1 ⟨("y.b"), constHandler 2⟩).1

/-- A registry holding only the namespaced `ns.err`, whose handler
fails. -/
def nsErrRegistry : Registry :=
  (Register newRegistry ⟨("ns.err"), failHandler⟩).1

/-! ## The claims -/

/-- C10: Register is atomic on error: whenever `Register` returns an
error (duplicate name or invalid namespace form), the registry's entry
map and its short-name index are exactly as they were before the
call. -/
theorem c10_register_atomic_on_error (r : Registry) (d : Directive) (e : String)
    (h : (Register r d).2 = some e) :
    (Register r d).1.entries = r.entries ∧ (Register r d).1.shorts = r.shorts := by
  rw [register_error_state r d e h]
  exact ⟨rfl, rfl⟩

/-- Witness for C10 at a concrete input: registering `num` twice fails
with the duplicate-name error and leaves both maps unchanged. -/
theorem c10_register_atomic_on_error_witness :
    (Register numRegistry ⟨("num"), intHandler⟩).2
      = some ("directive " ++ quote ("num") ++ " already registered")
    ∧ ((Register numRegistry ⟨("num"), intHandler⟩).1.entries = numRegistry.entries
      ∧ (Register numRegistry ⟨("num"), intHandler⟩).1.shorts = numRegistry.shorts) :=
  ⟨rfl, c10_register_atomic_on_error numRegistry ⟨("num"), intHandler⟩
    ("directive " ++ quote ("num") ++ " already registered") rfl⟩

/-- C2 (code bug): the validation of `Register` was meant to reject a
namespaced name with an empty prefix, but the code only checks the
empty-suffix and multiple-separator cases, so `.x` is accepted: it is
stored in the entry map and indexed under the short name `x` with no
error, while `x.` and `a.b.c` are rejected as the claim says. -/
theorem c2_register_empty_prefix_accepted :
    (Register newRegistry ⟨(".x"), intHandler⟩).2 = none
    ∧ (assocLookup (Register newRegistry ⟨(".x"), intHandler⟩).1.entries (".x")).isSome = true
    ∧ lookupShorts (Register newRegistry ⟨(".x"), intHandler⟩).1.shorts ("x") = [(".x")]
    ∧ (Register newRegistry ⟨("x."), intHandler⟩).2
      = some ("directive " ++ quote ("x.") ++ " invalid namespace (expected ns.name)")
    ∧ (Register newRegistry ⟨("a.b.c"), intHandler⟩).2
      = some ("directive " ++ quote ("a.b.c") ++ " invalid namespace (expected ns.name)") :=
  ⟨rfl, rfl, rfl, rfl, rfl⟩

/-- C5: an exact registration always wins: whenever a lookup name has an
entry registered under it, `InvokeDirective` invokes exactly that
entry's handler — it is never reported ambiguous and never resolves
through the short-name index. In particular, with the bare `b` and the
namespaced `x.b` both registered, resolving `b` always runs the bare
handler and resolving `x.b` still runs the namespaced one. -/
theorem c5_bare_registration_wins :
    (∀ (R : Registry) (name : String) (ent : Directive) (ts : List Tok),
      assocLookup R.entries name = some ent →
      InvokeDirective R name ts = callDirective ent ts)
    ∧ (∀ ts : List Tok, InvokeDirective bnRegistry ("b") ts = .ok (.vNum 1, ts))
    ∧ (∀ ts : List Tok, InvokeDirective bnRegistry ("x.b") ts = .ok (.vNum 2, ts)) := by
  refine ⟨?_, ?_, ?_⟩
  · intro R name ent ts h
    rw [InvokeDirective, h]
  · intro ts
    rfl
  · intro ts
    rfl

/-- Witness for C5: applying the exact-match part of the theorem to the
registry holding both `b` and `x.b`. -/
theorem c5_bare_registration_wins_witness :
    InvokeDirective bnRegistry ("b") [] = callDirective ⟨("b"), constHandler 1⟩ [] :=
  c5_bare_registration_wins.1 bnRegistry ("b") ⟨("b"), constHandler 1⟩ [] rfl

/-- C6: for a bare lookup name with no exact registration: an empty
ambiguity set fails with the not-registered error; a singleton set
resolves to that handler; a set of two or more fails with the ambiguity
error whose message enumerates all qualified candidates, joined in the
(deterministic) order the short-name index holds them, which is
registration order. -/
theorem c6_bare_lookup_resolution (R : Registry) (name : String) (ts : List Tok)
    (hex : assocLookup R.entries name = none)
    (hbare : lastIndexOfChar name R.sepByte = none) :
    (lookupShorts R.shorts name = [] →
      InvokeDirective R name ts = .error ("directive " ++ quote name ++ " not registered"))
    ∧ (∀ (m : String) (ent : Directive),
      lookupShorts R.shorts name = [m] → assocLookup R.entries m = some ent →
      InvokeDirective R name ts = callDirective ent ts)
    ∧ (∀ ms : List String, lookupShorts R.shorts name = ms → 2 ≤ ms.length →
      InvokeDirective R name ts = .error ("directive " ++ quote name ++ " ambiguous ("
        ++ String.intercalate (", ") ms ++ ")")) := by
  refine ⟨?_, ?_, ?_⟩
  · intro h0
    rw [InvokeDirective, hex, if_pos hbare, h0]
  · intro m ent h1 hm
    rw [InvokeDirective, hex, if_pos hbare, h1]
    show (match assocLookup R.entries m with
      | some ent2 => callDirective ent2 ts
      | none => Except.error ("directive " ++ quote name ++ " not registered"))
      = callDirective ent ts
    rw [hm]
  · intro ms hms hlen
    rw [InvokeDirective, hex, if_pos hbare, hms]
    cases ms with
    | nil => simp at hlen
    | cons m1 tl =>
      cases tl with
      | nil => simp at hlen
      | cons m2 tl2 => rfl

/-- Witness for C6: with `x.b` and `y.b` registered, resolving `b` fails
with a message enumerating both qualified names. -/
theorem c6_bare_lookup_resolution_witness :
    InvokeDirective xyRegistry ("b") []
      = .error ("directive " ++ quote ("b") ++ " ambiguous ("
        ++ String.intercalate (", ") [("x.b"), ("y.b")] ++ ")") :=
  (c6_bare_lookup_resolution xyRegistry ("b") [] rfl rfl).2.2 [("x.b"), ("y.b")] rfl
    (by decide)

/-- C7: whenever the invoked handler fails, `InvokeDirective` returns an
error naming the fully-qualified name of the entry that was actually
invoked — also when the lookup used a bare shorthand `name` for the
namespaced registration `m`, in which case the message names `m`, not
the shorthand. -/
theorem c7_handler_error_names_qualified (R : Registry) (name m : String)
    (ent : Directive) (ts : List Tok) (e : String) :
    (assocLookup R.entries name = some ent → ent.call ts = .error e →
      InvokeDirective R name ts
        = .error ("directive " ++ quote ent.name ++ ": " ++ e))
    ∧ (assocLookup R.entries name = none → lastIndexOfChar name R.sepByte = none →
      lookupShorts R.shorts name = [m] → assocLookup R.entries m = some ent →
      ent.name = m → ent.call ts = .error e →
      InvokeDirective R name ts = .error ("directive " ++ quote m ++ ": " ++ e)) := by
  have hcd : ent.call ts = Except.error e →
      callDirective ent ts = .error ("directive " ++ quote ent.name ++ ": " ++ e) := by
    intro hcall
    show (match ent.call ts with
      | Except.error e2 => Except.error ("directive " ++ quote ent.name ++ ": " ++ e2)
      | Except.ok res => Except.ok res)
      = Except.error ("directive " ++ quote ent.name ++ ": " ++ e)
    rw [hcall]
  constructor
  · intro hent hcall
    rw [InvokeDirective, hent]
    show callDirective ent ts = Except.error ("directive " ++ quote ent.name ++ ": " ++ e)
    exact hcd hcall
  · intro hex hbare hshort hent hname hcall
    rw [InvokeDirective, hex, if_pos hbare, hshort]
    show (match assocLookup R.entries m with
      | some ent2 => callDirective ent2 ts
      | none => Except.error ("directive " ++ quote name ++ " not registered"))
      = Except.error ("directive " ++ quote m ++ ": " ++ e)
    rw [hent]
    show callDirective ent ts = Except.error ("directive " ++ quote m ++ ": " ++ e)
    rw [hcd hcall, hname]

/-- Witness for C7: the bare lookup `err` reaches the failing handler
registered as `ns.err`, and the error names `ns.err`. -/
theorem c7_handler_error_names_qualified_witness :
    InvokeDirective nsErrRegistry ("err") []
      = .error ("directive " ++ quote ("ns.err") ++ ": " ++ "boom") :=
  (c7_handler_error_names_qualified nsErrRegistry ("err") ("ns.err")
    ⟨("ns.err"), failHandler⟩ [] "boom").2 rfl rfl rfl rfl rfl rfl

/-- A registration that registers one directive, as the `NewDirective`
wrapper of unmarshaller.go produces. -/
def regOf (d : Directive) : Registration := fun r => Register r d

/-- C9: `Apply` and both `NewRegistry` constructions run the
registrations in order and stop at the first failure, returning its
error: registrations after the failing one are never applied (the
result does not depend on them), and the ones before it remain applied
(the resulting state is the state the successful prefix produced; a
failing `Register` leaves the state untouched by C10). -/
theorem c9_composition_stops_at_first_failure :
    (∀ (r r1 r2 : Registry) (pre : List Registration) (bad : Registration)
        (post : List Registration) (e : String),
      Apply r pre = (r1, none) → bad r1 = (r2, some e) →
      Apply r (pre ++ bad :: post) = (r2, some e))
    ∧ (∀ (r r1 : Registry) (pre : List Directive) (d : Directive)
        (post : List Directive) (e : String),
      registerAll r pre = (r1, none) → (Register r1 d).2 = some e →
      registerAll r (pre ++ d :: post) = (r1, some e))
    ∧ (∀ (regs : List Registration) (r2 : Registry) (e : String),
      Apply newRegistry regs = (r2, some e) → NewRegistry regs = .error e)
    ∧ (∀ (ds : List Directive) (r2 : Registry) (e : String),
      registerAll newRegistry ds = (r2, some e) → NewRegistryDirectives ds = .error e) := by
  refine ⟨?_, ?_, ?_, ?_⟩
  · intro r r1 r2 pre bad post e hpre hbad
    rw [Apply_append_ok pre r r1 (bad :: post) hpre, Apply, hbad]
  · intro r r1 pre d post e hpre hbad
    have hstate : Register r1 d = (r1, some e) := by
      have h1 := register_error_state r1 d e hbad
      calc Register r1 d = ((Register r1 d).1, (Register r1 d).2) := rfl
        _ = (r1, some e) := by rw [h1, hbad]
    rw [registerAll_append_ok pre r r1 (d :: post) hpre, registerAll, hstate]
  · intro regs r2 e h
    rw [NewRegistry, h]
  · intro ds r2 e h
    rw [NewRegistryDirectives, h]

/-- Witness for C9: registering `b`, then `b` again (which fails as a
duplicate), then `x.b`: the batch stops at the duplicate with its
error, the state still holds exactly the first registration, and the
third directive is never applied. -/
theorem c9_composition_stops_at_first_failure_witness :
    Apply newRegistry [regOf ⟨("b"), constHandler 1⟩, regOf ⟨("b"), constHandler 2⟩,
        regOf ⟨("x.b"), constHandler 3⟩]
      = ((Register newRegistry ⟨("b"), constHandler 1⟩).1,
        some ("directive " ++ quote ("b") ++ " already registered"))
    ∧ NewRegistryDirectives [⟨("b"), constHandler 1⟩, ⟨("b"), constHandler 2⟩]
      = .error ("directive " ++ quote ("b") ++ " already registered") := by
  constructor
  · exact c9_composition_stops_at_first_failure.1 newRegistry
      (Register newRegistry ⟨("b"), constHandler 1⟩).1
      (Register newRegistry ⟨("b"), constHandler 1⟩).1
      [regOf ⟨("b"), constHandler 1⟩] (regOf ⟨("b"), constHandler 2⟩)
      [regOf ⟨("x.b"), constHandler 3⟩]
      ("directive " ++ quote ("b") ++ " already registered") rfl rfl
  · exact c9_composition_stops_at_first_failure.2.2.2
      [⟨("b"), constHandler 1⟩, ⟨("b"), constHandler 2⟩]
      (Register newRegistry ⟨("b"), constHandler 1⟩).1
      ("directive " ++ quote ("b") ++ " already registered") rfl

/-! ## The sentinel branch of decodeObject -/

/-- The sentinel branch of `decodeObject` (unmarshaler.go lines
114-128), isolated: when the object is non-empty, sentinel handling is
on, a registry was passed and the first key carries the marker, the
decode is exactly: invoke the registry on the name after the marker,
then drain the remaining fields up to the close-brace, consume it, and
yield the handler's value with `wasOperator` set. -/
theorem decodeObject_sentinel (R reg : Registry) (firstKey : String) (ts : List Tok)
    (fuel : Nat) (hm : hasMarker firstKey = true) :
    decodeObject R (some reg) true (fuel + 1) (Tok.lbrace :: Tok.str firstKey :: ts)
      = match InvokeDirective reg (stripMarker firstKey) ts with
        | .error e => .error ("operator " ++ quote firstKey ++ " call: " ++ e)
        | .ok (vv, rest3) =>
          match skipAllFields fuel rest3 with
          | none => .error ("operator " ++ quote firstKey ++ " skip extra field")
          | some rest4 =>
            match rest4 with
            | .rbrace :: rest5 => .ok (vv, true, rest5)
            | _ => .error ("operator " ++ quote firstKey ++ " read object close") := by
  show (if (true && hasMarker firstKey) = true then _ else
      decodeObjectPlain R firstKey fuel ts) = _
  rw [hm]
  simp

/-- C1 counterexample: decoding the object with literal first key `$`
(and one ordinary value) against an empty registry does NOT produce the
plain one-entry document the claim requires; the decoder treats the key
as a sentinel, looks up the empty remainder in the registry and fails
with the not-registered error. -/
theorem c1_counterexample :
    decodeValue newRegistry 10 [Tok.lbrace, Tok.str ("$"), Tok.num 1, Tok.rbrace]
      = .error ("operator " ++ quote ("$") ++ " call: "
        ++ ("directive " ++ quote ("") ++ " not registered"))
    ∧ decodeValue newRegistry 10 [Tok.lbrace, Tok.str ("$"), Tok.num 1, Tok.rbrace]
      ≠ .ok (.vD [(("$"), .vNum 1)], []) := by
  constructor
  · rfl
  · intro h
    rw [show decodeValue newRegistry 10 [Tok.lbrace, Tok.str ("$"), Tok.num 1, Tok.rbrace]
      = .error ("operator " ++ quote ("$") ++ " call: "
        ++ ("directive " ++ quote ("") ++ " not registered")) from rfl] at h
    exact Except.noConfusion h

/-- C1 amended: a first key of exactly the marker character `$` IS
treated as a sentinel by generic-target decode: the marker is stripped
and the registry is consulted with the empty lookup name, so — whenever
nothing is registered under the empty name — the decode fails with the
not-registered error instead of producing a Document with `$` as an
ordinary key. -/
theorem c1_amended_marker_only_key_dispatches (R : Registry) (rest : List Tok)
    (fuel : Nat) (hfuel : 2 ≤ fuel)
    (hent : assocLookup R.entries ("") = none)
    (hshort : lookupShorts R.shorts ("") = []) :
    decodeValue R fuel (Tok.lbrace :: Tok.str ("$") :: rest)
      = .error ("operator " ++ quote ("$") ++ " call: "
        ++ ("directive " ++ quote ("") ++ " not registered")) := by
  obtain ⟨f, rfl⟩ : ∃ f, fuel = f + 2 := ⟨fuel - 2, by omega⟩
  have hinv : InvokeDirective R (stripMarker ("$")) rest
      = .error ("directive " ++ quote ("") ++ " not registered") := by
    rw [show stripMarker ("$") = ("") from rfl, InvokeDirective, hent,
      if_pos (show lastIndexOfChar ("") R.sepByte = none from rfl), hshort]
  have hobj : decodeObject R (some R) true (f + 1) (Tok.lbrace :: Tok.str ("$") :: rest)
      = .error ("operator " ++ quote ("$") ++ " call: "
        ++ ("directive " ++ quote ("") ++ " not registered")) := by
    rw [decodeObject_sentinel R R ("$") rest f rfl, hinv]
  show (match decodeObject R (some R) true (f + 1) (Tok.lbrace :: Tok.str ("$") :: rest) with
    | .ok (v, _, r) => Except.ok (v, r)
    | .error e => Except.error e)
    = Except.error ("operator " ++ quote ("$") ++ " call: "
      ++ ("directive " ++ quote ("") ++ " not registered"))
  rw [hobj]

/-- Witness for the amended C1 at a concrete input: the empty registry
and the object with first key `$` and value 1. -/
theorem c1_amended_marker_only_key_dispatches_witness :
    decodeValue newRegistry 10 (Tok.lbrace :: Tok.str ("$") :: [Tok.num 1, Tok.rbrace])
      = .error ("operator " ++ quote ("$") ++ " call: "
        ++ ("directive " ++ quote ("") ++ " not registered")) :=
  c1_amended_marker_only_key_dispatches newRegistry [Tok.num 1, Tok.rbrace] 10
    (by decide) rfl rfl

/-- C3: when generic-target decode meets an object whose first key
carries the marker and the registry invocation succeeds, every
remaining key/value pair of the object is skipped without error, the
close-brace is consumed, and the handler's value is the decode result,
not wrapped in a Document. -/
theorem c3_sentinel_success (R : Registry) (firstKey : String) (ts : List Tok)
    (v : Value) (fields : JFields) (rest : List Tok) (fuel : Nat)
    (hm : hasMarker firstKey = true)
    (hfuel : sizeF fields + 3 ≤ fuel)
    (hinv : InvokeDirective R (stripMarker firstKey) ts
      = .ok (v, toksF fields ++ Tok.rbrace :: rest)) :
    decodeValue R fuel (Tok.lbrace :: Tok.str firstKey :: ts) = .ok (v, rest) := by
  obtain ⟨f, rfl⟩ : ∃ f, fuel = f + 2 := ⟨fuel - 2, by omega⟩
  have hobj : decodeObject R (some R) true (f + 1) (Tok.lbrace :: Tok.str firstKey :: ts)
      = .ok (v, true, rest) := by
    rw [decodeObject_sentinel R R firstKey ts f hm, hinv]
    show (match skipAllFields f (toksF fields ++ Tok.rbrace :: rest) with
      | none => Except.error ("operator " ++ quote firstKey ++ " skip extra field")
      | some rest4 =>
        match rest4 with
        | Tok.rbrace :: rest5 => Except.ok (v, true, rest5)
        | _ => Except.error ("operator " ++ quote firstKey ++ " read object close"))
      = Except.ok (v, true, rest)
    rw [skipAllFields_toksF fields f rest (by omega)]
  show (match decodeObject R (some R) true (f + 1) (Tok.lbrace :: Tok.str firstKey :: ts) with
    | .ok (v2, _, r) => Except.ok (v2, r)
    | .error e => Except.error e) = Except.ok (v, rest)
  rw [hobj]

/-- The trailing fields of the spec's C3 example: `"extra": true`. -/
def extraFields : JFields := JFields.fcons ("extra") (J.jbool true) JFields.fnil

/-- Witness for C3: the spec's example: an integer-reading handler for
`num` decodes the sentinel object with first key `$num`, value 42, and
the extra field `"extra": true` to the integer 42 with no error. -/
theorem c3_sentinel_success_witness :
    decodeValue numRegistry 10 (Tok.lbrace :: Tok.str ("$num")
        :: (Tok.num 42 :: (toksF extraFields ++ Tok.rbrace :: [])))
      = .ok (.vNum 42, []) :=
  c3_sentinel_success numRegistry ("$num")
    (Tok.num 42 :: (toksF extraFields ++ Tok.rbrace :: []))
    (.vNum 42) extraFields [] 10 rfl (by decide) rfl

/-- C4: when the decode target is the Document type itself, sentinel
detection is disabled for the target's own object — its first key may
begin with the marker and is kept as an ordinary entry key, against any
registry — while a sentinel object appearing as a nested value is still
intercepted and replaced by its handler's result. -/
theorem c4_document_target_exempts_top_level_only :
    (∀ (R : Registry) (fields : JFields) (rest : List Tok) (fuel : Nat),
      noSentF fields = true → sizeF fields + 1 ≤ fuel →
      decodeDocument R fuel (Tok.lbrace :: (toksF fields ++ Tok.rbrace :: rest))
        = .ok (.vD (decodeTreeF fields), rest))
    ∧ (∀ (R : Registry) (k firstKey : String) (ts : List Tok) (v : Value)
        (rest : List Tok) (fuel : Nat),
      hasMarker firstKey = true → 5 ≤ fuel →
      InvokeDirective R (stripMarker firstKey) ts
        = .ok (v, Tok.rbrace :: Tok.rbrace :: rest) →
      decodeDocument R fuel (Tok.lbrace :: Tok.str k :: Tok.lbrace :: Tok.str firstKey :: ts)
        = .ok (.vD [(k, v)], rest)) := by
  constructor
  · intro R fields rest fuel hns hfuel
    show (match decodeObject R none false fuel (Tok.lbrace :: (toksF fields ++ Tok.rbrace :: rest)) with
      | .ok (v, _, r) => Except.ok (v, r)
      | .error e => Except.error e) = Except.ok (Value.vD (decodeTreeF fields), rest)
    rw [decodeObject_toksF R none false fields fuel rest hfuel hns (Or.inl rfl)]
  · intro R k firstKey ts v rest fuel hm hfuel hinv
    obtain ⟨g, rfl⟩ : ∃ g, fuel = g + 5 := ⟨fuel - 5, by omega⟩
    have hobjInner : decodeObject R (some R) true (g + 2)
        (Tok.lbrace :: Tok.str firstKey :: ts) = .ok (v, true, Tok.rbrace :: rest) := by
      rw [decodeObject_sentinel R R firstKey ts (g + 1) hm, hinv]
      rfl
    have hval : decodeValue R (g + 3) (Tok.lbrace :: Tok.str firstKey :: ts)
        = .ok (v, Tok.rbrace :: rest) := by
      show (match decodeObject R (some R) true (g + 2)
          (Tok.lbrace :: Tok.str firstKey :: ts) with
        | .ok (v2, _, r) => Except.ok (v2, r)
        | .error e => Except.error e) = Except.ok (v, Tok.rbrace :: rest)
      rw [hobjInner]
    have hplain : decodeObjectPlain R k (g + 4) (Tok.lbrace :: Tok.str firstKey :: ts)
        = .ok (.vD [(k, v)], false, rest) := by
      show (match decodeValue R (g + 3) (Tok.lbrace :: Tok.str firstKey :: ts) with
        | .error e => Except.error ("read object value for key " ++ quote k ++ ": " ++ e)
        | .ok (firstVal, r) =>
          match decodeFields R [(k, firstVal)] (g + 3) r with
          | .error e => Except.error e
          | .ok (entries, r2) => Except.ok (Value.vD entries, false, r2))
        = Except.ok (Value.vD [(k, v)], false, rest)
      rw [hval]
      rfl
    show (match decodeObject R none false (g + 5)
        (Tok.lbrace :: Tok.str k :: Tok.lbrace :: Tok.str firstKey :: ts) with
      | .ok (v2, _, r) => Except.ok (v2, r)
      | .error e => Except.error e) = Except.ok (Value.vD [(k, v)], rest)
    have hobjOuter : decodeObject R none false (g + 5)
        (Tok.lbrace :: Tok.str k :: Tok.lbrace :: Tok.str firstKey :: ts)
        = .ok (.vD [(k, v)], false, rest) := by
      show decodeObjectPlain R k (g + 4) (Tok.lbrace :: Tok.str firstKey :: ts)
        = .ok (.vD [(k, v)], false, rest)
      exact hplain
    rw [hobjOuter]

/-- The fields of the C4 witness's top-level object:
`"$num": 42, "b": 2` with no nested sentinel. -/
def c4TopFields : JFields :=
  JFields.fcons ("$num") (J.jnum 42) (JFields.fcons ("b") (J.jnum 2) JFields.fnil)

/-- Witness for C4: with the `num` handler registered, the
Document-target decode of the object with fields `$num: 42, b: 2` keeps
`$num` as an ordinary key, while the Document-target decode of
`outer: {"$num": 7}` intercepts the nested sentinel and stores the
handler's integer. -/
theorem c4_document_target_exempts_top_level_only_witness :
    decodeDocument numRegistry 10 (Tok.lbrace :: (toksF c4TopFields ++ Tok.rbrace :: []))
      = .ok (.vD [(("$num"), .vNum 42), (("b"), .vNum 2)], [])
    ∧ decodeDocument numRegistry 10 (Tok.lbrace :: Tok.str ("outer")
        :: Tok.lbrace :: Tok.str ("$num") :: [Tok.num 7, Tok.rbrace, Tok.rbrace])
      = .ok (.vD [(("outer"), .vNum 7)], []) := by
  constructor
  · exact c4_document_target_exempts_top_level_only.1 numRegistry c4TopFields [] 10
      (by decide) (by decide)
  · exact c4_document_target_exempts_top_level_only.2 numRegistry ("outer") ("$num")
      [Tok.num 7, Tok.rbrace, Tok.rbrace] (.vNum 7) [] 10 rfl (by decide) rfl

/-- C8: a well-formed JSON object whose first key is not a sentinel
(and whose values contain no sentinel objects, so that every nested
value decodes plainly) decodes — through the generic target and through
the Document target alike — to a Document whose entries are exactly the
key/value pairs in textual order; the entry keys are exactly the keys
as written, so duplicate keys stay separate entries and are never
merged. -/
theorem c8_plain_object_textual_order (R : Registry) (fields : JFields)
    (rest : List Tok) (fuel : Nat)
    (hns : noSentJ (J.jobj fields) = true) (hfuel : sizeJ (J.jobj fields) < fuel) :
    decodeValue R fuel (toksJ (J.jobj fields) ++ rest)
      = .ok (.vD (decodeTreeF fields), rest)
    ∧ decodeDocument R fuel (toksJ (J.jobj fields) ++ rest)
      = .ok (.vD (decodeTreeF fields), rest)
    ∧ (decodeTreeF fields).map Prod.fst = keysF fields := by
  refine ⟨?_, ?_, decodeTreeF_keys fields⟩
  · have h := decodeValue_toksJ R (J.jobj fields) fuel rest hfuel hns
    rw [decodeTreeJ] at h
    exact h
  · obtain ⟨hm, hnf⟩ := noSentJ_jobj hns
    rw [sizeJ] at hfuel
    simp only [toksJ, List.cons_append, List.append_assoc, List.singleton_append,
      List.nil_append]
    show (match decodeObject R none false fuel
        (Tok.lbrace :: (toksF fields ++ Tok.rbrace :: rest)) with
      | .ok (v, _, r) => Except.ok (v, r)
      | .error e => Except.error e) = Except.ok (Value.vD (decodeTreeF fields), rest)
    rw [decodeObject_toksF R none false fields fuel rest (by omega) hnf (Or.inl rfl)]

/-- The fields of the C8 witness: the duplicate keys `a: 1, a: 2`. -/
def dupFields : JFields :=
  JFields.fcons ("a") (J.jnum 1) (JFields.fcons ("a") (J.jnum 2) JFields.fnil)

/-- Witness for C8 on an object with duplicate keys: both decodes keep
the two `a` entries separate and in textual order. -/
theorem c8_plain_object_textual_order_witness :
    decodeValue newRegistry 20 (toksJ (J.jobj dupFields) ++ [])
      = .ok (.vD [(("a"), .vNum 1), (("a"), .vNum 2)], [])
    ∧ keysF dupFields = [("a"), ("a")] := by
  have h := c8_plain_object_textual_order newRegistry dupFields [] 20 (by decide) (by decide)
  exact ⟨h.1, rfl⟩

end JWalk
